import Mathlib

/-!
Verification of the matching-and-synchronization engine of
`src/Restatement_Process.py` (outlook-attachment-extractor).

The Python source is shallowly embedded: strings are Lean `String`s
(`str.lower`/`str.strip` are modelled character by character on code points),
`fnmatch.fnmatch` is modelled as a glob matcher over the `normcase`d name and
pattern, pandas cells read from the sheet are modelled by `CellVal`
(a string or NaN), the processor object is the record `ProcState`, and a
Python method that can raise returns its (possibly mutated) state together
with an `Except PyErr` result.  External plumbing (COM/Outlook session
management, the physical xlsx I/O, logging) is out of scope per the spec;
its observable inputs (message lists, sheet rows, column headers) are
parameters of the embedded functions.
-/

namespace RestatementProcess

/-! ## Python string primitives -/

/-- Model of CPython `str.lower` on one character, stated on code points:
an ASCII uppercase letter (65..90) is shifted by 32, everything else is kept.
The source only feeds ASCII configuration/sheet data through `lower()`. -/
def pyLowerChar (c : Char) : Char :=
  if 65 ≤ c.toNat ∧ c.toNat ≤ 90 then Char.ofNat (c.toNat + 32) else c

/-- Model of `str.lower`, mapping `pyLowerChar` over the characters. -/
def pyLower (s : String) : String :=
  ⟨s.data.map pyLowerChar⟩

/-- Whitespace characters removed by `str.strip()` (ASCII whitespace). -/
def isPySpace (c : Char) : Bool :=
  c = ' ' || c = '\t' || c = '\n' || c = '\r' || c = '\x0b' || c = '\x0c'

/-- Model of `str.strip()`: drop whitespace from both ends. -/
def pyStrip (s : String) : String :=
  ⟨(((s.data.dropWhile isPySpace).reverse.dropWhile isPySpace).reverse : List Char)⟩

/-- Model of `os.path.normcase` on Windows (the source is a pywin32 script):
forward slashes become backslashes and letters are lower-cased.
`fnmatch.fnmatch` applies this to both of its arguments. -/
def normcaseChar (c : Char) : Char :=
  if c = '/' then '\\' else pyLowerChar c

/-- String-level `os.path.normcase` (Windows). -/
def normcase (s : String) : String :=
  ⟨s.data.map normcaseChar⟩

/-! ## Glob matching (model of `fnmatch.fnmatch`)

`fnmatch` compiles the pattern to a regex with `*` ↦ `.*`, `?` ↦ `.`,
`[seq]` ↦ a character class (with `[!seq]` negation, a leading `]` literal,
and `-` ranges) and matches the whole name.  We model this as a direct
tokenised glob matcher.  Both matching functions take a fuel argument so
that they are structurally recursive; the wrappers supply fuel that is
provably sufficient (every recursive call consumes at least one character
or one token together with one unit of fuel). -/

/-- One compiled token of a glob pattern. -/
inductive Tok where
  | star : Tok
  | anyChar : Tok
  | lit : Char → Tok
  | cls : Bool → List Char → Tok
deriving DecidableEq

/-- Scan the body of a `[...]` class up to the closing `]`.
Returns the collected body and the remainder after the `]`. -/
def scanClass (acc : List Char) : List Char → Option (List Char × List Char)
  | [] => none
  | ']' :: rest => some (acc.reverse, rest)
  | c :: rest => scanClass (c :: acc) rest

/-- Split a class body off the input just after a `[`.  The first character is
always taken literally (so `[]]` has body `]`), matching `fnmatch`'s rule. -/
def splitClass : List Char → Option (List Char × List Char)
  | [] => none
  | c :: rest => scanClass [c] rest

/-- Membership of a character in a class body, with `a-b` ranges. -/
def inClass : List Char → Char → Bool
  | a :: '-' :: b :: rest, c =>
    (a.toNat ≤ c.toNat && c.toNat ≤ b.toNat) || inClass rest c
  | a :: rest, c => (a = c) || inClass rest c
  | [], _ => false

/-- Tokenise a glob pattern (fuel-driven; each step consumes input). -/
def parsePatAux : Nat → List Char → List Tok
  | 0, _ => []
  | _ + 1, [] => []
  | fuel + 1, '*' :: ps => Tok.star :: parsePatAux fuel ps
  | fuel + 1, '?' :: ps => Tok.anyChar :: parsePatAux fuel ps
  | fuel + 1, '[' :: ps =>
    match ps with
    | '!' :: ps' =>
      match splitClass ps' with
      | some (body, rest) => Tok.cls true body :: parsePatAux fuel rest
      | none => Tok.lit '[' :: parsePatAux fuel ps
    | _ =>
      match splitClass ps with
      | some (body, rest) => Tok.cls false body :: parsePatAux fuel rest
      | none => Tok.lit '[' :: parsePatAux fuel ps
  | fuel + 1, c :: ps => Tok.lit c :: parsePatAux fuel ps

/-- Tokenise a glob pattern. -/
def parsePat (ps : List Char) : List Tok :=
  parsePatAux (ps.length + 1) ps

/-- Match a token list against a name (fuel-driven; a `*` either matches the
empty run or consumes one character of the name). -/
def tokMatchAux : Nat → List Tok → List Char → Bool
  | 0, _, _ => false
  | _ + 1, [], [] => true
  | _ + 1, [], _ :: _ => false
  | fuel + 1, Tok.star :: ts, [] => tokMatchAux fuel ts []
  | fuel + 1, Tok.star :: ts, c :: ns =>
    tokMatchAux fuel ts (c :: ns) || tokMatchAux fuel (Tok.star :: ts) ns
  | fuel + 1, Tok.anyChar :: ts, _ :: ns => tokMatchAux fuel ts ns
  | _ + 1, Tok.anyChar :: _, [] => false
  | fuel + 1, Tok.lit c :: ts, d :: ns => (c = d) && tokMatchAux fuel ts ns
  | _ + 1, Tok.lit _ :: _, [] => false
  | fuel + 1, Tok.cls neg body :: ts, d :: ns =>
    (inClass body d != neg) && tokMatchAux fuel ts ns
  | _ + 1, Tok.cls _ _ :: _, [] => false

/-- Match a token list against a name. -/
def tokMatch (ts : List Tok) (ns : List Char) : Bool :=
  tokMatchAux (ts.length + ns.length + 1) ts ns

/-- Model of `fnmatch.fnmatch(name, pattern)` on Windows: both arguments are
passed through `os.path.normcase`, the pattern is compiled, and the whole
name must match. -/
def fnmatch (name pattern : String) : Bool :=
  tokMatch (parsePat (normcase pattern).data) (normcase name).data

/-! ## Filename sanitisation and path joining -/

/-- Characters of the class in `re.sub(r'[<>:"/\\|?*]', '_', save_name)`. -/
def isIllegalChar (c : Char) : Bool :=
  c = '<' || c = '>' || c = ':' || c = '"' || c = '/' || c = '\\' ||
    c = '|' || c = '?' || c = '*'

/-- Model of `re.sub(r'[<>:"/\\|?*]', '_', s)`: every occurrence of an
illegal character is replaced by a single underscore. -/
def sanitize (s : String) : String :=
  ⟨s.data.map (fun c => if isIllegalChar c then '_' else c)⟩

/-- Model of `os.path.join(a, b)` on Windows for a relative second component
(the joined names here are sanitised filenames, which contain no separator
and no drive letter): append a backslash separator unless `a` is empty or
already ends in a separator or a drive colon. -/
def osJoin (a b : String) : String :=
  if a.data = [] then b
  else if (a.data.getLast? == some '\\') || (a.data.getLast? == some '/')
      || (a.data.getLast? == some ':') then a ++ b
  else a ++ "\\" ++ b

/-! ## Data model

`CellVal` models what `pd.read_excel` delivers for one cell of the mapping
sheet: a string, or NaN for an absent cell.  Python's `str()` of NaN is the
string `"nan"`. -/

/-- One spreadsheet cell as read by pandas: a string or NaN (absent). -/
inductive CellVal where
  | str : String → CellVal
  | nan : CellVal
deriving DecidableEq

/-- Model of Python `str(cell)`: `str(nan)` is the string `"nan"`. -/
def pyStr : CellVal → String
  | CellVal.str s => s
  | CellVal.nan => "nan"

/-- One data row of the mapping sheet (the four cells the loader reads;
the `status` cell is not read by `build_dictionary_from_excel`). -/
structure SrcRow where
  sender : CellVal
  subject : CellVal
  attachment : CellVal
  savename : CellVal
deriving DecidableEq

/-- One value of the mapping dictionary:
`{'AttachmentPattern': ..., 'SaveName': ..., 'RowIndex': idx}`. -/
structure RuleVal where
  attachmentPattern : String
  saveName : String
  rowIndex : Nat
deriving DecidableEq

/-- The mapping dictionary: an insertion-ordered association list from
`(sender, subject)` keys to candidate lists, as a Python `dict` of lists. -/
abbrev RuleDict := List ((String × String) × List RuleVal)

/-- The `updates` dictionary accumulated by `match_and_save_attachments`:
`RowIndex ↦ status` (the nested `{'Status': ...}` dict is modelled by the
status string, its only entry). -/
abbrev Updates := List (Nat × String)

/-- One archival write performed by `attachment.SaveAsFile(save_path)`:
the path written and the attachment's bytes. -/
abbrev Write := String × List Nat

/-- One message attachment: its `FileName`, its bytes, and whether
`SaveAsFile` succeeds on it (an unreadable attachment raises). -/
structure Attachment where
  fileName : String
  content : List Nat
  readable : Bool
deriving DecidableEq

/-- One inbound Outlook item: `isMail` models `message.Class == 43`. -/
structure Message where
  isMail : Bool
  sender : String
  subject : String
  attachments : List Attachment
deriving DecidableEq

/-! ## Python dict operations -/

/-- Lookup in an insertion-ordered dict (`d.get(k, default)` with the
default supplied by the caller via `Option.getD`). -/
def dictGet : RuleDict → (String × String) → List RuleVal
  | [], _ => []
  | (k', vs) :: rest, k => if k' = k then vs else dictGet rest k

/-- Model of `d.setdefault(key, []).append(value)`: append to the existing
key's list, else add the key at the end. -/
def dictAppend : RuleDict → (String × String) → RuleVal → RuleDict
  | [], k, v => [(k, [v])]
  | (k', vs) :: rest, k, v =>
    if k' = k then (k', vs ++ [v]) :: rest else (k', vs) :: dictAppend rest k v

/-- Model of `updates[idx] = {'Status': s}`: replace in place if the key
exists (keeping its position), else append. -/
def dictInsert : Updates → Nat → String → Updates
  | [], k, v => [(k, v)]
  | (k', v') :: rest, k, v =>
    if k' = k then (k', v) :: rest else (k', v') :: dictInsert rest k v

/-- Lookup in the updates dict. -/
def updLookup : Updates → Nat → Option String
  | [], _ => none
  | (k', v') :: rest, k => if k' = k then some v' else updLookup rest k

/-! ## Rule Table Loader (`build_dictionary_from_excel`, lines 193–206) -/

/-- The normalized `(sender, subject)` key built for one row:
`(str(row['sender']).lower().strip(), str(row['subject']).lower().strip())`. -/
def loaderKey (r : SrcRow) : String × String :=
  (pyStrip (pyLower (pyStr r.sender)), pyStrip (pyLower (pyStr r.subject)))

/-- The candidate value built for one row at positional index `idx`. -/
def loaderVal (idx : Nat) (r : SrcRow) : RuleVal :=
  { attachmentPattern := pyStrip (pyLower (pyStr r.attachment))
    saveName := pyStrip (pyStr r.savename)
    rowIndex := idx }

/-- The loop of `build_dictionary_from_excel` over `df.iterrows()`:
`idx` is the 0-based positional index, and each row's key/value pair is
inserted with `setdefault(...).append(...)`. -/
def buildDict (rows : List SrcRow) : RuleDict :=
  rows.enum.foldl (fun d ir => dictAppend d (loaderKey ir.2) (loaderVal ir.1 ir.2)) []

/-! ## Message Evaluator and Archival Writer
(`match_and_save_attachments`, lines 264–308) -/

/-- The normalized filename of an attachment:
`str(attachment.FileName).lower().strip()`. -/
def attName (a : Attachment) : String :=
  pyStrip (pyLower a.fileName)

/-- The normalized `(sender, subject)` key of a message, built with the same
normalization as the loader. -/
def msgKey (m : Message) : String × String :=
  (pyStrip (pyLower m.sender), pyStrip (pyLower m.subject))

/-- The inner candidate loop for one attachment (`for match in
possible_matches`): every candidate whose pattern matches yields one
`SaveAsFile` write followed by one `updates[RowIndex] = {'Status': 'Saved'}`.
The returned Bool reports whether `SaveAsFile` raised on an unreadable
attachment, aborting the rest of the message's processing; the write and
the update of the failing candidate are not performed.  (The `matched`
flag of the source only feeds a log line and is not modelled.) -/
def processCands (arch : String) (att : Attachment) (name : String) :
    List RuleVal → Updates → List Write → Updates × List Write × Bool
  | [], upd, ws => (upd, ws, false)
  | c :: cs, upd, ws =>
    if fnmatch name c.attachmentPattern then
      if att.readable then
        processCands arch att name cs (dictInsert upd c.rowIndex "Saved")
          (ws ++ [(osJoin arch (sanitize c.saveName), att.content)])
      else (upd, ws, true)
    else processCands arch att name cs upd ws

/-- The attachment loop of one message (`for attachment in
message.Attachments`); an exception stops the message's remaining
attachments but keeps what was already accumulated. -/
def processAtts (arch : String) (cands : List RuleVal) :
    List Attachment → Updates → List Write → Updates × List Write × Bool
  | [], upd, ws => (upd, ws, false)
  | a :: as', upd, ws =>
    match processCands arch a (attName a) cands upd ws with
    | (upd', ws', true) => (upd', ws', true)
    | (upd', ws', false) => processAtts arch cands as' upd' ws'

/-- Processing of one message: only mail items with at least one attachment
are evaluated; candidates come from `self.mapping_dict.get(key, [])`. -/
def processMessage (arch : String) (d : RuleDict) (upd : Updates)
    (ws : List Write) (m : Message) : Updates × List Write × Bool :=
  if m.isMail && decide (0 < m.attachments.length) then
    processAtts arch (dictGet d (msgKey m)) m.attachments upd ws
  else (upd, ws, false)

/-- The message loop (`for i, message in enumerate(self.items)`): the
per-message `try/except` swallows the error flag, keeps the partial
results, and continues with the next message. -/
def processMessages (arch : String) (d : RuleDict) :
    Updates → List Write → List Message → Updates × List Write
  | upd, ws, [] => (upd, ws)
  | upd, ws, m :: ms =>
    match processMessage arch d upd ws m with
    | (upd', ws', _) => processMessages arch d upd' ws' ms

/-- The whole body of `match_and_save_attachments` after its guard:
`updates = {}` then the message loop; returns the updates dict and the
archival writes performed. -/
def matchAndSave (arch : String) (d : RuleDict) (msgs : List Message) :
    Updates × List Write :=
  processMessages arch d [] [] msgs

/-! ## Reset step (`reset_excel_template`, lines 169–175) -/

/-- The status-clearing loop of `reset_excel_template`, over the sheet rows
from Excel row 2 on, each row holding its column-E (status) and column-F
cells.  The loop clears E and F while E is non-empty and stops at the first
row whose E cell is `None`; rows past the end of the sheet read as `None`,
which the end of the list models. -/
def resetStatus : List (Option String × Option String) →
    List (Option String × Option String)
  | [] => []
  | (none, f) :: rest => (none, f) :: rest
  | (some _, _) :: rest => ((none : Option String), (none : Option String)) :: resetStatus rest

/-! ## Processor state and stateful methods -/

/-- Python exceptions distinguished by the claims. -/
inductive PyErr where
  | valueError : PyErr
  | keyError : PyErr
deriving DecidableEq

/-- Writes made to the automated worksheet, as `((row, column), value)`
cell assignments in the order performed. -/
abbrev SheetWrites := List ((Nat × Nat) × String)

/-- The mutable state of a `RestatementProcessor` (the fields the claims
touch; COM handles and the workbook object are plumbing).  `sheet` records
the status-cell writes of `update_excel_status`, `files` the archival
writes on disk. -/
structure ProcState where
  excelFile : String
  archiveFolder : String
  mailboxName : Option String
  mappingDf : Option (List String)
  mappingDict : Option RuleDict
  items : Option (List Message)
  excelDocUpdates : Option Updates
  sheet : SheetWrites
  files : List Write
deriving DecidableEq

/-- Model of `RestatementProcessor.__init__(excel_file, archive_folder,
mailbox_name=None, folder_name=None)` — note the parameter order. -/
def initProcessor (excel_file archive_folder : String)
    (mailbox_name : Option String) : ProcState :=
  { excelFile := excel_file
    archiveFolder := archive_folder
    mailboxName := mailbox_name
    mappingDf := none
    mappingDict := none
    items := none
    excelDocUpdates := none
    sheet := []
    files := [] }

/-- The required-column names checked by `build_dictionary_from_excel`. -/
def requiredCols : List String :=
  ["sender", "subject", "attachment", "savename", "status"]

/-- Model of `build_dictionary_from_excel`: the sheet's column headers are
stripped and lower-cased and stored as `mapping_df`'s columns; a missing
required column raises `KeyError` (after `self.mapping_df` was already
assigned); otherwise the mapping dict is built.  `self.mapping_dict` is
assigned inside the row loop, so it is only set when at least one row
exists.  (The `pd.read_excel` I/O failure path returns early and is
external plumbing, not modelled.) -/
def buildDictionaryS (cols : List String) (rows : List SrcRow)
    (st : ProcState) : ProcState × Except PyErr RuleDict :=
  let cols' := cols.map fun c => pyLower (pyStrip c)
  let st₁ := { st with mappingDf := some cols' }
  if requiredCols.all fun c => cols'.contains c then
    let d := buildDict rows
    ({ st₁ with mappingDict := if rows.isEmpty then st₁.mappingDict else some d },
      Except.ok d)
  else (st₁, Except.error PyErr.keyError)

/-- Model of `match_and_save_attachments`: raises `ValueError` (state
untouched) when `self.items is None`; otherwise runs the message loop and
stores the updates dict in `self.excel_doc_updates`.  A `None`
`mapping_dict` makes every keyed message raise `AttributeError` inside the
per-message `try`, which is observably the same as an empty dict (no
updates, no writes), so it is modelled by `Option.getD []`. -/
def matchAndSaveAttachmentsS (st : ProcState) :
    ProcState × Except PyErr Updates :=
  match st.items with
  | none => (st, Except.error PyErr.valueError)
  | some msgs =>
    match matchAndSave st.archiveFolder (st.mappingDict.getD []) msgs with
    | (upd, ws) =>
      ({ st with excelDocUpdates := some upd, files := st.files ++ ws },
        Except.ok upd)

/-- The update loop of `update_excel_status`: for each accumulated outcome,
the target Excel row is `RowIndex + 2` and the status column is
`mapping_df.columns.get_loc('Status') + 1`; a label absent from the columns
makes `get_loc` raise `KeyError`.  Since `get_loc` is evaluated on the
first iteration, a `KeyError` escapes before any cell was written. -/
def applyUpdates (cols : List String) (sheet : SheetWrites) :
    Updates → Except PyErr SheetWrites
  | [] => Except.ok sheet
  | (idx, s) :: rest =>
    match cols.indexOf? "Status" with
    | none => Except.error PyErr.keyError
    | some c => applyUpdates cols (sheet ++ [((idx + 2, c + 1), s)]) rest

/-- Model of `update_excel_status`: raises `ValueError` (state untouched)
when `self.excel_doc_updates is None`; otherwise runs the update loop.
The trailing named-cell metadata writes (`End_Time`, `Execution_Time`) and
`wb.save` are external spreadsheet plumbing and are not modelled. -/
def updateExcelStatusS (st : ProcState) : ProcState × Except PyErr Unit :=
  match st.excelDocUpdates with
  | none => (st, Except.error PyErr.valueError)
  | some upd =>
    match applyUpdates (st.mappingDf.getD []) st.sheet upd with
    | Except.error e => (st, Except.error e)
    | Except.ok sh => ({ st with sheet := sh }, Except.ok ())

/-! ## `main()` wiring (lines 359–397) -/

/-- A calendar date, for `make_import_archive_path`'s reference date. -/
structure PyDate where
  year : Nat
  month : Nat
  day : Nat
deriving DecidableEq

/-- Full month names, for `strftime('%B')`. -/
def monthName (m : Nat) : String :=
  ["January", "February", "March", "April", "May", "June", "July",
    "August", "September", "October", "November", "December"].getD (m - 1) ""

/-- Zero-padded two-digit rendering, for `strftime('%m')`/`%d`. -/
def twoDigits (n : Nat) : String :=
  if n < 10 then "0" ++ toString n else toString n

/-- Model of `make_import_archive_path(reference_date)`: the dated archive
directory `BASE_PATH/%Y/%B/COB %m.%d.%Y` (the `os.makedirs` side effect is
external plumbing). -/
def makeImportArchivePath (basePath : String) (rd : PyDate) : String :=
  osJoin (osJoin (osJoin basePath (toString rd.year)) (monthName rd.month))
    ("COB " ++ twoDigits rd.month ++ "." ++ twoDigits rd.day ++ "." ++ toString rd.year)

/-- Model of the constructor call in `main()` (line 380):
`RestatementProcessor(EXCEL_FILE, SHARED_MAILBOX, save_dir)` — the
positional arguments bind `archive_folder := SHARED_MAILBOX` and
`mailbox_name := save_dir`. -/
def mainBuildProcessor (excel_file shared_mailbox save_dir : String) : ProcState :=
  initProcessor excel_file shared_mailbox (some save_dir)

/-! ## Specification predicates -/

/-- Folding the `updates[RowIndex] = {'Status': 'Saved'}` insertions of a
candidate list into an updates dict (the net effect of the candidate loop
on the updates dict). -/
def insertAll (upd : Updates) (cs : List RuleVal) : Updates :=
  cs.foldl (fun u c => dictInsert u c.rowIndex "Saved") upd

/-- A string containing no ASCII uppercase letter (code points 65–90):
what coming out of `str.lower` guarantees. -/
def NoUpperAscii (s : String) : Prop :=
  ∀ c ∈ s.data, ¬(65 ≤ c.toNat ∧ c.toNat ≤ 90)

/-- A string with no surrounding whitespace: what coming out of
`str.strip` guarantees. -/
def TrimmedStr (s : String) : Prop :=
  (∀ c, s.data.head? = some c → isPySpace c = false) ∧
  (∀ c, s.data.getLast? = some c → isPySpace c = false)

/-! ## Helper lemmas -/

theorem pyLowerChar_no_upper (c : Char) :
    ¬(65 ≤ (pyLowerChar c).toNat ∧ (pyLowerChar c).toNat ≤ 90) := by
  unfold pyLowerChar
  by_cases h : 65 ≤ c.toNat ∧ c.toNat ≤ 90
  · rw [if_pos h]
    have hv : (c.toNat + 32).isValidChar := Or.inl (by omega)
    have : (Char.ofNat (c.toNat + 32)).toNat = c.toNat + 32 := by
      rw [Char.ofNat, dif_pos hv]
      simp [Char.ofNatAux, Char.toNat, UInt32.toNat]
    omega
  · rw [if_neg h]
    exact h

theorem head?_dropWhile (p : Char → Bool) :
    ∀ (l : List Char) (c : Char), (l.dropWhile p).head? = some c → p c = false := by
  intro l
  induction l with
  | nil => intro c h; simp [List.dropWhile] at h
  | cons a l ih =>
    intro c h
    by_cases ha : p a
    · rw [List.dropWhile_cons_of_pos ha] at h
      exact ih c h
    · rw [List.dropWhile_cons_of_neg ha] at h
      rw [List.head?_cons, Option.some_inj] at h
      rw [← h]
      simpa using ha

theorem getLast?_dropWhile (p : Char → Bool) :
    ∀ (l : List Char), l.dropWhile p ≠ [] → (l.dropWhile p).getLast? = l.getLast? := by
  intro l
  induction l with
  | nil => intro h; simp [List.dropWhile] at h
  | cons a l ih =>
    intro h
    by_cases ha : p a
    · rw [List.dropWhile_cons_of_pos ha] at h ⊢
      match l, h with
      | b :: l', h => rw [ih h, List.getLast?_cons_cons]
    · rw [List.dropWhile_cons_of_neg ha]

theorem pyStrip_trimmed (s : String) : TrimmedStr (pyStrip s) := by
  constructor
  · intro c hc
    rw [pyStrip] at hc
    simp only [List.head?_reverse] at hc
    by_cases hB : ((s.data.dropWhile isPySpace).reverse.dropWhile isPySpace) = []
    · rw [hB] at hc
      simp at hc
    · rw [getLast?_dropWhile isPySpace _ hB, List.getLast?_reverse] at hc
      exact head?_dropWhile isPySpace _ c hc
  · intro c hc
    rw [pyStrip] at hc
    simp only [List.getLast?_reverse] at hc
    exact head?_dropWhile isPySpace _ c hc

theorem pyStrip_chars_subset (s : String) (c : Char) (h : c ∈ (pyStrip s).data) :
    c ∈ s.data := by
  rw [pyStrip] at h
  rw [List.mem_reverse] at h
  have h2 := (List.dropWhile_sublist isPySpace).mem h
  rw [List.mem_reverse] at h2
  exact (List.dropWhile_sublist isPySpace).mem h2

theorem pyLower_noUpper (s : String) : NoUpperAscii (pyLower s) := by
  intro c hc
  rw [pyLower] at hc
  simp only [List.mem_map] at hc
  obtain ⟨a, _, ha⟩ := hc
  rw [← ha]
  exact pyLowerChar_no_upper a

theorem pyStrip_noUpper (s : String) (h : NoUpperAscii s) :
    NoUpperAscii (pyStrip s) :=
  fun c hc => h c (pyStrip_chars_subset s c hc)

theorem updLookup_dictInsert_self (u : Updates) (k : Nat) (v : String) :
    updLookup (dictInsert u k v) k = some v := by
  induction u with
  | nil => simp [dictInsert, updLookup]
  | cons p u ih =>
    by_cases h : p.1 = k
    · simp [dictInsert, updLookup, h]
    · simp [dictInsert, updLookup, h, ih]

theorem updLookup_dictInsert_ne (u : Updates) (k k' : Nat) (v : String)
    (h : k ≠ k') : updLookup (dictInsert u k v) k' = updLookup u k' := by
  induction u with
  | nil => simp [dictInsert, updLookup, h]
  | cons p u ih =>
    by_cases hp : p.1 = k
    · simp [dictInsert, updLookup, hp, h]
    · simp [dictInsert, updLookup, hp, ih]

theorem dictInsert_fresh (u : Updates) (k : Nat) (v : String)
    (h : updLookup u k = none) : dictInsert u k v = u ++ [(k, v)] := by
  induction u with
  | nil => simp [dictInsert]
  | cons p u ih =>
    by_cases hp : p.1 = k
    · simp [updLookup, hp] at h
    · simp [updLookup, hp] at h
      simp [dictInsert, hp, ih h]

theorem insertAll_fresh :
    ∀ (cs : List RuleVal) (u : Updates),
      (∀ c ∈ cs, updLookup u c.rowIndex = none) →
      (cs.map (fun c => c.rowIndex)).Nodup →
      insertAll u cs = u ++ cs.map (fun c => (c.rowIndex, "Saved")) := by
  intro cs
  induction cs with
  | nil => intro u _ _; simp [insertAll]
  | cons c cs ih =>
    intro u hfresh hnd
    have hc : updLookup u c.rowIndex = none := hfresh c (by simp)
    have hstep : insertAll u (c :: cs) = insertAll (dictInsert u c.rowIndex "Saved") cs := rfl
    rw [hstep, ih (dictInsert u c.rowIndex "Saved") ?_ (by simpa using hnd.of_cons)]
    · rw [dictInsert_fresh u c.rowIndex "Saved" hc]
      simp
    · intro c' hc'
      have hne : c.rowIndex ≠ c'.rowIndex := by
        simp only [List.map_cons, List.nodup_cons] at hnd
        intro he
        exact hnd.1 (he ▸ List.mem_map_of_mem (fun x => x.rowIndex) hc')
      rw [updLookup_dictInsert_ne u c.rowIndex c'.rowIndex "Saved" hne]
      exact hfresh c' (by simp [hc'])

theorem dictGet_of_all_ne (d : RuleDict) (k : String × String)
    (h : ∀ e ∈ d, e.1 ≠ k) : dictGet d k = [] := by
  induction d with
  | nil => rfl
  | cons e d ih =>
    have he : e.1 ≠ k := h e (by simp)
    match e with
    | (k', vs) => simpa [dictGet, he] using ih fun x hx => h x (by simp [hx])

theorem dictGet_dictAppend_ne (d : RuleDict) (k0 k : String × String)
    (v : RuleVal) (h : k0 ≠ k) : dictGet (dictAppend d k0 v) k = dictGet d k := by
  induction d with
  | nil => simp [dictAppend, dictGet, h]
  | cons e d ih =>
    match e with
    | (k', vs) =>
      by_cases hk : k' = k0
      · simp [dictAppend, hk, dictGet, h]
      · by_cases hk2 : k' = k
        · simp [dictAppend, hk, dictGet, hk2, Ne.symm h]
        · simp [dictAppend, hk, dictGet, hk2, ih]

theorem buildDict_absent_aux (k : String × String) :
    ∀ (l : List (Nat × SrcRow)) (acc : RuleDict),
      (∀ ir ∈ l, loaderKey ir.2 ≠ k) → dictGet acc k = [] →
      dictGet (l.foldl (fun d ir => dictAppend d (loaderKey ir.2) (loaderVal ir.1 ir.2)) acc) k
        = [] := by
  intro l
  induction l with
  | nil => intro acc _ hacc; simpa using hacc
  | cons ir l ih =>
    intro acc hl hacc
    rw [List.foldl_cons]
    refine ih _ (fun x hx => hl x (by simp [hx])) ?_
    rw [dictGet_dictAppend_ne _ _ _ _ (hl ir (by simp)), hacc]

theorem dictGet_buildDict_absent (rows : List SrcRow) (k : String × String)
    (h : ∀ r ∈ rows, loaderKey r ≠ k) : dictGet (buildDict rows) k = [] := by
  refine buildDict_absent_aux k rows.enum [] ?_ rfl
  intro ir hir
  exact h ir.2 (List.snd_mem_of_mem_enum hir)

theorem processCands_readable (arch : String) (att : Attachment) (name : String)
    (h : att.readable = true) :
    ∀ (cs : List RuleVal) (upd : Updates) (ws : List Write),
      processCands arch att name cs upd ws
        = (insertAll upd (cs.filter fun c => fnmatch name c.attachmentPattern),
            ws ++ (cs.filter fun c => fnmatch name c.attachmentPattern).map
              (fun c => (osJoin arch (sanitize c.saveName), att.content)),
            false) := by
  intro cs
  induction cs with
  | nil => intro upd ws; simp [processCands, insertAll]
  | cons c cs ih =>
    intro upd ws
    by_cases hm : fnmatch name c.attachmentPattern
    · have hstep : insertAll upd (c :: cs.filter fun c => fnmatch name c.attachmentPattern)
          = insertAll (dictInsert upd c.rowIndex "Saved")
              (cs.filter fun c => fnmatch name c.attachmentPattern) := rfl
      simp [processCands, hm, h, ih, List.filter_cons, hstep]
    · simp [processCands, hm, ih, List.filter_cons]

theorem processCands_nomatch (arch : String) (att : Attachment) (name : String) :
    ∀ (cs : List RuleVal) (upd : Updates) (ws : List Write),
      (∀ c ∈ cs, fnmatch name c.attachmentPattern = false) →
      processCands arch att name cs upd ws = (upd, ws, false) := by
  intro cs
  induction cs with
  | nil => intro upd ws _; rfl
  | cons c cs ih =>
    intro upd ws hall
    have hc : fnmatch name c.attachmentPattern = false := hall c (by simp)
    simp [processCands, hc]
    exact ih upd ws fun c' hc' => hall c' (by simp [hc'])

theorem processAtts_nomatch (arch : String) (cands : List RuleVal) :
    ∀ (atts : List Attachment) (upd : Updates) (ws : List Write),
      (∀ a ∈ atts, ∀ c ∈ cands, fnmatch (attName a) c.attachmentPattern = false) →
      processAtts arch cands atts upd ws = (upd, ws, false) := by
  intro atts
  induction atts with
  | nil => intro upd ws _; rfl
  | cons a atts ih =>
    intro upd ws hall
    have ha := processCands_nomatch arch a (attName a) cands upd ws
      (fun c hc => hall a (by simp) c hc)
    simp [processAtts, ha]
    exact ih upd ws fun a' ha' c hc => hall a' (by simp [ha']) c hc

theorem processCands_write_mem (arch : String) (att : Attachment) (name : String) :
    ∀ (cs : List RuleVal) (upd : Updates) (ws : List Write) (w : Write),
      w ∈ (processCands arch att name cs upd ws).2.1 →
      w ∈ ws ∨ ∃ c ∈ cs, w = (osJoin arch (sanitize c.saveName), att.content) := by
  intro cs
  induction cs with
  | nil => intro upd ws w hw; exact Or.inl hw
  | cons c cs ih =>
    intro upd ws w hw
    by_cases hm : fnmatch name c.attachmentPattern
    · by_cases hr : att.readable
      · rw [show processCands arch att name (c :: cs) upd ws
            = processCands arch att name cs (dictInsert upd c.rowIndex "Saved")
                (ws ++ [(osJoin arch (sanitize c.saveName), att.content)]) by
          simp [processCands, hm, hr]] at hw
        rcases ih _ _ w hw with h1 | ⟨c', hc', he⟩
        · rcases List.mem_append.mp h1 with h2 | h2
          · exact Or.inl h2
          · exact Or.inr ⟨c, by simp, by simpa using h2⟩
        · exact Or.inr ⟨c', by simp [hc'], he⟩
      · rw [show processCands arch att name (c :: cs) upd ws = (upd, ws, true) by
          simp [processCands, hm, hr]] at hw
        exact Or.inl hw
    · rw [show processCands arch att name (c :: cs) upd ws
          = processCands arch att name cs upd ws by simp [processCands, hm]] at hw
      rcases ih _ _ w hw with h1 | ⟨c', hc', he⟩
      · exact Or.inl h1
      · exact Or.inr ⟨c', by simp [hc'], he⟩

theorem processAtts_write_mem (arch : String) (cands : List RuleVal) :
    ∀ (atts : List Attachment) (upd : Updates) (ws : List Write) (w : Write),
      w ∈ (processAtts arch cands atts upd ws).2.1 →
      w ∈ ws ∨ ∃ a ∈ atts, ∃ c ∈ cands,
        w = (osJoin arch (sanitize c.saveName), a.content) := by
  intro atts
  induction atts with
  | nil => intro upd ws w hw; exact Or.inl hw
  | cons a atts ih =>
    intro upd ws w hw
    rcases hps : processCands arch a (attName a) cands upd ws with ⟨u', w', e⟩
    rw [show processAtts arch cands (a :: atts) upd ws
        = match processCands arch a (attName a) cands upd ws with
          | (u', w', true) => (u', w', true)
          | (u', w', false) => processAtts arch cands atts u' w' from rfl, hps] at hw
    have hcm : ∀ x, x ∈ w' →
        x ∈ ws ∨ ∃ c ∈ cands, x = (osJoin arch (sanitize c.saveName), a.content) := by
      intro x hx
      have := processCands_write_mem arch a (attName a) cands upd ws x
      rw [hps] at this
      exact this hx
    cases e with
    | true =>
      simp only at hw
      rcases hcm w hw with h1 | ⟨c, hc, he⟩
      · exact Or.inl h1
      · exact Or.inr ⟨a, by simp, c, hc, he⟩
    | false =>
      simp only at hw
      rcases ih u' w' w hw with h1 | ⟨a', ha', c, hc, he⟩
      · rcases hcm w h1 with h2 | ⟨c, hc, he⟩
        · exact Or.inl h2
        · exact Or.inr ⟨a, by simp, c, hc, he⟩
      · exact Or.inr ⟨a', by simp [ha'], c, hc, he⟩

theorem processMessage_write_mem (arch : String) (d : RuleDict) (upd : Updates)
    (ws : List Write) (m : Message) (w : Write)
    (hw : w ∈ (processMessage arch d upd ws m).2.1) :
    w ∈ ws ∨ ∃ k, ∃ c ∈ dictGet d k, ∃ b,
      w = (osJoin arch (sanitize c.saveName), b) := by
  rw [processMessage] at hw
  by_cases hg : (m.isMail && decide (0 < m.attachments.length)) = true
  · rw [if_pos hg] at hw
    rcases processAtts_write_mem arch (dictGet d (msgKey m)) m.attachments upd ws w hw with
      h1 | ⟨a, _, c, hc, he⟩
    · exact Or.inl h1
    · exact Or.inr ⟨msgKey m, c, hc, a.content, he⟩
  · rw [if_neg hg] at hw
    exact Or.inl hw

theorem processMessages_cons (arch : String) (d : RuleDict) (upd : Updates)
    (ws : List Write) (m : Message) (ms : List Message) :
    processMessages arch d upd ws (m :: ms)
      = processMessages arch d (processMessage arch d upd ws m).1
          (processMessage arch d upd ws m).2.1 ms := by
  rcases h : processMessage arch d upd ws m with ⟨u', w', e⟩
  simp [processMessages, h]

theorem processMessages_write_mem (arch : String) (d : RuleDict) :
    ∀ (msgs : List Message) (upd : Updates) (ws : List Write) (w : Write),
      w ∈ (processMessages arch d upd ws msgs).2 →
      w ∈ ws ∨ ∃ k, ∃ c ∈ dictGet d k, ∃ b,
        w = (osJoin arch (sanitize c.saveName), b) := by
  intro msgs
  induction msgs with
  | nil => intro upd ws w hw; exact Or.inl hw
  | cons m ms ih =>
    intro upd ws w hw
    rw [processMessages_cons] at hw
    rcases ih _ _ w hw with h1 | h2
    · rcases processMessage_write_mem arch d upd ws m w h1 with h3 | h4
      · exact Or.inl h3
      · exact Or.inr h4
    · exact Or.inr h2

theorem processMessages_append (arch : String) (d : RuleDict) :
    ∀ (l₁ : List Message) (upd : Updates) (ws : List Write) (l₂ : List Message),
      processMessages arch d upd ws (l₁ ++ l₂)
        = processMessages arch d (processMessages arch d upd ws l₁).1
            (processMessages arch d upd ws l₁).2 l₂ := by
  intro l₁
  induction l₁ with
  | nil => intro upd ws l₂; rfl
  | cons m l₁ ih =>
    intro upd ws l₂
    rw [List.cons_append, processMessages_cons, ih, processMessages_cons]

theorem processCands_upd_pres (arch : String) (att : Attachment) (name : String) :
    ∀ (cs : List RuleVal) (upd : Updates) (ws : List Write) (k : Nat) (v : String),
      (updLookup upd k = some v ∨ updLookup upd k = some "Saved") →
      (updLookup (processCands arch att name cs upd ws).1 k = some v ∨
        updLookup (processCands arch att name cs upd ws).1 k = some "Saved") := by
  intro cs
  induction cs with
  | nil => intro upd ws k v h; exact h
  | cons c cs ih =>
    intro upd ws k v h
    by_cases hm : fnmatch name c.attachmentPattern
    · by_cases hr : att.readable
      · rw [show processCands arch att name (c :: cs) upd ws
            = processCands arch att name cs (dictInsert upd c.rowIndex "Saved")
                (ws ++ [(osJoin arch (sanitize c.saveName), att.content)]) by
          simp [processCands, hm, hr]]
        refine ih _ _ k v ?_
        by_cases hk : c.rowIndex = k
        · rw [hk] at *
          exact Or.inr (updLookup_dictInsert_self upd k "Saved")
        · rw [updLookup_dictInsert_ne upd c.rowIndex k "Saved" hk]
          exact h
      · rw [show processCands arch att name (c :: cs) upd ws = (upd, ws, true) by
          simp [processCands, hm, hr]]
        exact h
    · rw [show processCands arch att name (c :: cs) upd ws
          = processCands arch att name cs upd ws by simp [processCands, hm]]
      exact ih _ _ k v h

theorem processAtts_upd_pres (arch : String) (cands : List RuleVal) :
    ∀ (atts : List Attachment) (upd : Updates) (ws : List Write) (k : Nat) (v : String),
      (updLookup upd k = some v ∨ updLookup upd k = some "Saved") →
      (updLookup (processAtts arch cands atts upd ws).1 k = some v ∨
        updLookup (processAtts arch cands atts upd ws).1 k = some "Saved") := by
  intro atts
  induction atts with
  | nil => intro upd ws k v h; exact h
  | cons a atts ih =>
    intro upd ws k v h
    rcases hps : processCands arch a (attName a) cands upd ws with ⟨u', w', e⟩
    have hp := processCands_upd_pres arch a (attName a) cands upd ws k v h
    rw [hps] at hp
    rw [show processAtts arch cands (a :: atts) upd ws
        = match processCands arch a (attName a) cands upd ws with
          | (u', w', true) => (u', w', true)
          | (u', w', false) => processAtts arch cands atts u' w' from rfl, hps]
    cases e with
    | true => exact hp
    | false => exact ih u' w' k v hp

theorem processMessage_upd_pres (arch : String) (d : RuleDict) (upd : Updates)
    (ws : List Write) (m : Message) (k : Nat) (v : String)
    (h : updLookup upd k = some v) :
    updLookup (processMessage arch d upd ws m).1 k = some v ∨
      updLookup (processMessage arch d upd ws m).1 k = some "Saved" := by
  rw [processMessage]
  by_cases hg : (m.isMail && decide (0 < m.attachments.length)) = true
  · rw [if_pos hg]
    exact processAtts_upd_pres arch (dictGet d (msgKey m)) m.attachments upd ws k v
      (Or.inl h)
  · rw [if_neg hg]
    exact Or.inl h

theorem processCands_ws_ext (arch : String) (att : Attachment) (name : String) :
    ∀ (cs : List RuleVal) (upd : Updates) (ws : List Write),
      ∃ t, (processCands arch att name cs upd ws).2.1 = ws ++ t := by
  intro cs
  induction cs with
  | nil => intro upd ws; exact ⟨[], by simp [processCands]⟩
  | cons c cs ih =>
    intro upd ws
    by_cases hm : fnmatch name c.attachmentPattern
    · by_cases hr : att.readable
      · rw [show processCands arch att name (c :: cs) upd ws
            = processCands arch att name cs (dictInsert upd c.rowIndex "Saved")
                (ws ++ [(osJoin arch (sanitize c.saveName), att.content)]) by
          simp [processCands, hm, hr]]
        obtain ⟨t, ht⟩ := ih (dictInsert upd c.rowIndex "Saved")
          (ws ++ [(osJoin arch (sanitize c.saveName), att.content)])
        exact ⟨(osJoin arch (sanitize c.saveName), att.content) :: t, by simp [ht]⟩
      · exact ⟨[], by simp [processCands, hm, hr]⟩
    · rw [show processCands arch att name (c :: cs) upd ws
          = processCands arch att name cs upd ws by simp [processCands, hm]]
      exact ih upd ws

theorem processAtts_ws_ext (arch : String) (cands : List RuleVal) :
    ∀ (atts : List Attachment) (upd : Updates) (ws : List Write),
      ∃ t, (processAtts arch cands atts upd ws).2.1 = ws ++ t := by
  intro atts
  induction atts with
  | nil => intro upd ws; exact ⟨[], by simp [processAtts]⟩
  | cons a atts ih =>
    intro upd ws
    rcases hps : processCands arch a (attName a) cands upd ws with ⟨u', w', e⟩
    obtain ⟨t₁, ht₁⟩ := processCands_ws_ext arch a (attName a) cands upd ws
    rw [hps] at ht₁
    rw [show processAtts arch cands (a :: atts) upd ws
        = match processCands arch a (attName a) cands upd ws with
          | (u', w', true) => (u', w', true)
          | (u', w', false) => processAtts arch cands atts u' w' from rfl, hps]
    cases e with
    | true => exact ⟨t₁, ht₁⟩
    | false =>
      obtain ⟨t₂, ht₂⟩ := ih u' w'
      exact ⟨t₁ ++ t₂, by simp only at ht₁ ht₂ ⊢; rw [ht₂, ht₁, List.append_assoc]⟩

theorem processMessage_ws_ext (arch : String) (d : RuleDict) (upd : Updates)
    (ws : List Write) (m : Message) :
    ∃ t, (processMessage arch d upd ws m).2.1 = ws ++ t := by
  rw [processMessage]
  by_cases hg : (m.isMail && decide (0 < m.attachments.length)) = true
  · rw [if_pos hg]
    exact processAtts_ws_ext arch (dictGet d (msgKey m)) m.attachments upd ws
  · rw [if_neg hg]
    exact ⟨[], by simp⟩

theorem dictAppend_pres (P : (String × String) → Prop) (Q : RuleVal → Prop) :
    ∀ (d : RuleDict) (k : String × String) (v : RuleVal),
      (∀ e ∈ d, P e.1 ∧ ∀ x ∈ e.2, Q x) → P k → Q v →
      ∀ e ∈ dictAppend d k v, P e.1 ∧ ∀ x ∈ e.2, Q x := by
  intro d
  induction d with
  | nil =>
    intro k v _ hk hv e he
    simp [dictAppend] at he
    subst he
    exact ⟨hk, by simpa using hv⟩
  | cons p d ih =>
    intro k v hall hk hv e he
    match p with
    | (k', vs) =>
      by_cases hkk : k' = k
      · rw [show dictAppend ((k', vs) :: d) k v = (k', vs ++ [v]) :: d by
          simp [dictAppend, hkk]] at he
        rcases List.mem_cons.mp he with he1 | he2
        · subst he1
          refine ⟨(hall (k', vs) (by simp)).1, ?_⟩
          intro x hx
          rcases List.mem_append.mp hx with hx1 | hx2
          · exact (hall (k', vs) (by simp)).2 x hx1
          · rw [List.mem_singleton.mp hx2]
            exact hv
        · exact hall e (by simp [he2])
      · rw [show dictAppend ((k', vs) :: d) k v = (k', vs) :: dictAppend d k v by
          simp [dictAppend, hkk]] at he
        rcases List.mem_cons.mp he with he1 | he2
        · subst he1
          exact hall (k', vs) (by simp)
        · exact ih k v (fun x hx => hall x (by simp [hx])) hk hv e he2

theorem buildDict_pres (P : (String × String) → Prop) (Q : RuleVal → Prop)
    (hPK : ∀ r, P (loaderKey r)) (hQV : ∀ (idx : Nat) (r : SrcRow), Q (loaderVal idx r)) :
    ∀ (l : List (Nat × SrcRow)) (acc : RuleDict),
      (∀ e ∈ acc, P e.1 ∧ ∀ x ∈ e.2, Q x) →
      ∀ e ∈ l.foldl (fun d ir => dictAppend d (loaderKey ir.2) (loaderVal ir.1 ir.2)) acc,
        P e.1 ∧ ∀ x ∈ e.2, Q x := by
  intro l
  induction l with
  | nil => intro acc hacc e he; exact hacc e he
  | cons ir l ih =>
    intro acc hacc e he
    rw [List.foldl_cons] at he
    exact ih _ (dictAppend_pres P Q acc _ _ hacc (hPK ir.2) (hQV ir.1 ir.2)) e he

theorem buildDict_single (r : SrcRow) :
    buildDict [r] = [(loaderKey r, [loaderVal 0 r])] := rfl

theorem processCands_filename_irrel (arch f f' : String) (bs : List Nat)
    (rd : Bool) (name : String) :
    ∀ (cs : List RuleVal) (upd : Updates) (ws : List Write),
      processCands arch ⟨f, bs, rd⟩ name cs upd ws
        = processCands arch ⟨f', bs, rd⟩ name cs upd ws := by
  intro cs
  induction cs with
  | nil => intro upd ws; rfl
  | cons c cs ih =>
    intro upd ws
    by_cases hm : fnmatch name c.attachmentPattern
    · by_cases hr : rd
      · subst hr
        simp [processCands, hm, ih]
      · simp [processCands, hm, hr]
    · simp [processCands, hm, ih]

theorem matchAndSave_single (arch : String) (d : RuleDict) (s t fn : String)
    (bs : List Nat) :
    matchAndSave arch d [⟨true, s, t, [⟨fn, bs, true⟩]⟩]
      = ((processCands arch ⟨fn, bs, true⟩ (pyStrip (pyLower fn))
            (dictGet d (pyStrip (pyLower s), pyStrip (pyLower t))) [] []).1,
          (processCands arch ⟨fn, bs, true⟩ (pyStrip (pyLower fn))
            (dictGet d (pyStrip (pyLower s), pyStrip (pyLower t))) [] []).2.1) := by
  rcases hps : processCands arch ⟨fn, bs, true⟩ (pyStrip (pyLower fn))
      (dictGet d (pyStrip (pyLower s), pyStrip (pyLower t))) [] [] with ⟨u', w', e⟩
  cases e <;>
    simp [matchAndSave, processMessages, processMessage, processAtts, msgKey, attName, hps]

/-! ## Theorems -/

/-- C1: the Result Synchronizer is meant to locate each outcome's row by
`RowIndex + 2` and set its status cell to `'Saved'`; but
`build_dictionary_from_excel` lower-cases every column header of
`mapping_df`, so the lookup `mapping_df.columns.get_loc('Status')` in
`update_excel_status` raises `KeyError` on the first outcome, and no status
cell is ever written.  Here the sheet's headers literally include
`"Status"`, one rule matched (the outcome set is `{0: {'Status': 'Saved'}}`),
and `update_excel_status` still fails with `KeyError`, leaving the sheet
untouched. -/
theorem update_excel_status_keyerror :
    (let st0 := initProcessor "Mapping.xlsx" "D:\\Archive" (some "mbox@corp.com")
    let st1 := (buildDictionaryS ["Sender", "Subject", "Attachment", "SaveName", "Status"]
      [⟨CellVal.str "a@x.com", CellVal.str "Report", CellVal.str "*.csv",
        CellVal.str "daily.csv"⟩] st0).1
    let st2 := { st1 with
      items := some [⟨true, "A@X.COM", "report", [⟨"Data.CSV", [7], true⟩]⟩] }
    let st3 := (matchAndSaveAttachmentsS st2).1
    st3.excelDocUpdates = some [(0, "Saved")] ∧
      updateExcelStatusS st3 = (st3, Except.error PyErr.keyError)) := by
  refine ⟨by decide, ?_⟩
  rfl

/-- C2: the attachments are meant to be persisted under the dated archive
directory produced by `make_import_archive_path`, but `main()` (line 380)
calls `RestatementProcessor(EXCEL_FILE, SHARED_MAILBOX, save_dir)` while
the constructor's second positional parameter is `archive_folder`: the
shared-mailbox string becomes the archive folder and the dated path becomes
the mailbox name, so every archival write lands under the mailbox string
instead of the dated directory. -/
theorem main_swapped_archive_argument :
    (let save_dir := makeImportArchivePath "P:\\Imports" ⟨2026, 10, 10⟩
    let st := mainBuildProcessor "Mapping.xlsx" "restatements@corp.com" save_dir
    let d := buildDict [⟨CellVal.str "a@x.com", CellVal.str "Report",
      CellVal.str "*.csv", CellVal.str "daily.csv"⟩]
    st.archiveFolder = "restatements@corp.com" ∧
      st.mailboxName = some save_dir ∧
      st.archiveFolder ≠ save_dir ∧
      (matchAndSaveAttachmentsS { st with
          mappingDict := some d,
          items := some [⟨true, "a@x.com", "report", [⟨"data.csv", [7], true⟩]⟩] }).1.files
        = [("restatements@corp.com\\daily.csv", [7])] ∧
      ("restatements@corp.com\\daily.csv" : String) ≠ osJoin save_dir "daily.csv") := by
  refine ⟨rfl, rfl, by decide, ?_, by decide⟩
  rfl

/-- C3 counterexample: the reset loop of `reset_excel_template` stops at the
first row whose column-E (status) cell is empty, so a prior status sitting
after a status-less row survives the reset: with sheet rows (from Excel
row 2) `[(E=None, F=None), (E='Saved', F=None)]`, the reset changes nothing
and a row still carries a status when evaluation starts. -/
theorem reset_skips_row_after_gap :
    resetStatus [(none, none), (some "Saved", none)]
        = [(none, none), (some "Saved", none)] ∧
      (resetStatus [(none, none), (some "Saved", none)]).any
        (fun r => r.1.isSome) = true := by
  decide

/-- C3 amended: the reset step clears the status (column E) and column-F
cells of exactly the maximal contiguous prefix of rows, starting at Excel
row 2, whose status cell is non-empty; the first row with an empty status
cell stops the loop and every row from there on keeps its prior cells. -/
theorem reset_clears_contiguous_prefix
    (rows : List (Option String × Option String)) :
    resetStatus rows
      = List.replicate (rows.takeWhile (fun r => r.1.isSome)).length
          ((none : Option String), (none : Option String))
        ++ rows.drop (rows.takeWhile (fun r => r.1.isSome)).length := by
  induction rows with
  | nil => rfl
  | cons r rest ih =>
    match r with
    | (none, f) => simp [resetStatus, List.takeWhile]
    | (some s, f) => simp [resetStatus, List.takeWhile, ih, List.replicate_succ]

/-- C4 counterexample: a NaN (absent) sender cell does not become the empty
string — `str(nan)` is `"nan"`, so the loader's key for such a row is
`"nan"`, not `""`. -/
theorem nan_cell_becomes_nan_string :
    (loaderKey ⟨CellVal.nan, CellVal.str "Subj", CellVal.str "*.csv",
        CellVal.str "x.csv"⟩).1 = "nan" ∧
      (loaderKey ⟨CellVal.nan, CellVal.str "Subj", CellVal.str "*.csv",
        CellVal.str "x.csv"⟩).1 ≠ "" := by
  decide

/-- C10: the engine enforces its stage ordering: `match_and_save_attachments`
raises `ValueError` when the items have not been retrieved, and
`update_excel_status` raises `ValueError` when no outcome set has been
produced; in both cases the state (sheet writes and files included) is
returned unmodified. -/
theorem stage_order_guard (st : ProcState) :
    (st.items = none →
      matchAndSaveAttachmentsS st = (st, Except.error PyErr.valueError)) ∧
    (st.excelDocUpdates = none →
      updateExcelStatusS st = (st, Except.error PyErr.valueError)) := by
  constructor
  · intro h
    simp [matchAndSaveAttachmentsS, h]
  · intro h
    simp [updateExcelStatusS, h]

/-- Witness for C10 at a freshly constructed processor. -/
theorem stage_order_guard_witness :
    matchAndSaveAttachmentsS (initProcessor "Map.xlsx" "D:\\Archive" none)
        = (initProcessor "Map.xlsx" "D:\\Archive" none,
            Except.error PyErr.valueError) ∧
      updateExcelStatusS (initProcessor "Map.xlsx" "D:\\Archive" none)
        = (initProcessor "Map.xlsx" "D:\\Archive" none,
            Except.error PyErr.valueError) :=
  ⟨(stage_order_guard _).1 rfl, (stage_order_guard _).2 rfl⟩

/-- C4 amended: for every row of the rule table, the loader normalizes each
cell used as a key (`sender`, `subject`, `attachment`) by lower-casing and
trimming surrounding whitespace — every key and every candidate pattern
stored in the mapping dictionary contains no ASCII uppercase letter and no
surrounding whitespace — and an absent/NaN cell becomes the string `"nan"`
(Python's `str(nan)`, lower-cased and trimmed), not an error. -/
theorem loader_key_normalization :
    (∀ (rows : List SrcRow) (e : (String × String) × List RuleVal),
      e ∈ buildDict rows →
      (NoUpperAscii e.1.1 ∧ TrimmedStr e.1.1 ∧ NoUpperAscii e.1.2 ∧ TrimmedStr e.1.2) ∧
        ∀ v ∈ e.2, NoUpperAscii v.attachmentPattern ∧ TrimmedStr v.attachmentPattern) ∧
    (∀ r : SrcRow, r.sender = CellVal.nan → (loaderKey r).1 = "nan") ∧
    (∀ r : SrcRow, r.subject = CellVal.nan → (loaderKey r).2 = "nan") ∧
    (∀ (idx : Nat) (r : SrcRow), r.attachment = CellVal.nan →
      (loaderVal idx r).attachmentPattern = "nan") := by
  refine ⟨?_, ?_, ?_, ?_⟩
  · intro rows e he
    refine buildDict_pres
      (fun k => NoUpperAscii k.1 ∧ TrimmedStr k.1 ∧ NoUpperAscii k.2 ∧ TrimmedStr k.2)
      (fun v => NoUpperAscii v.attachmentPattern ∧ TrimmedStr v.attachmentPattern)
      ?_ ?_ rows.enum [] (by simp) e he
    · intro r
      exact ⟨pyStrip_noUpper _ (pyLower_noUpper _), pyStrip_trimmed _,
        pyStrip_noUpper _ (pyLower_noUpper _), pyStrip_trimmed _⟩
    · intro idx r
      exact ⟨pyStrip_noUpper _ (pyLower_noUpper _), pyStrip_trimmed _⟩
  · intro r h
    simp only [loaderKey, h]
    decide
  · intro r h
    simp only [loaderKey, h]
    decide
  · intro idx r h
    simp only [loaderVal, h]
    decide

/-- Witness for C4's amended claim: the loader's output for a concrete row
with mixed case and surrounding blanks is lower-cased and trimmed, and a
NaN sender cell yields the key `"nan"`. -/
theorem loader_key_normalization_witness :
    ((NoUpperAscii "a@x.com" ∧ TrimmedStr "a@x.com" ∧
        NoUpperAscii "report" ∧ TrimmedStr "report") ∧
      ∀ v ∈ [RuleVal.mk "*.csv" "Daily.csv" 0],
        NoUpperAscii v.attachmentPattern ∧ TrimmedStr v.attachmentPattern) ∧
    (loaderKey ⟨CellVal.nan, CellVal.str "S", CellVal.str "p",
        CellVal.str "n"⟩).1 = "nan" :=
  ⟨loader_key_normalization.1
      [⟨CellVal.str " A@x.com ", CellVal.str "Report", CellVal.str "*.CSV",
        CellVal.str "Daily.csv"⟩]
      (("a@x.com", "report"), [RuleVal.mk "*.csv" "Daily.csv" 0]) (by decide),
    loader_key_normalization.2.1 _ rfl⟩

/-- C5: the evaluator tests one attachment against every candidate of the
message's key in original table order and records every match: for a run on
one mail message with one readable attachment, the archival writes are
exactly one per matching candidate, in candidate order, and (whenever the
matching candidates' row indices are distinct, as the loader guarantees)
the outcome set is exactly one `(rowIndex, "Saved")` entry per matching
candidate. -/
theorem all_matches_recorded (arch : String) (d : RuleDict) (m : Message)
    (a : Attachment) (h1 : m.isMail = true) (h2 : m.attachments = [a])
    (h3 : a.readable = true) :
    (matchAndSave arch d [m]).2
        = ((dictGet d (msgKey m)).filter fun c =>
            fnmatch (attName a) c.attachmentPattern).map
            (fun c => (osJoin arch (sanitize c.saveName), a.content)) ∧
      ((((dictGet d (msgKey m)).filter fun c =>
          fnmatch (attName a) c.attachmentPattern).map fun c => c.rowIndex).Nodup →
        (matchAndSave arch d [m]).1
          = ((dictGet d (msgKey m)).filter fun c =>
              fnmatch (attName a) c.attachmentPattern).map
              (fun c => (c.rowIndex, "Saved"))) := by
  have hc := processCands_readable arch a (attName a) h3 (dictGet d (msgKey m)) [] []
  have hrun : matchAndSave arch d [m]
      = ((processCands arch a (attName a) (dictGet d (msgKey m)) [] []).1,
          (processCands arch a (attName a) (dictGet d (msgKey m)) [] []).2.1) := by
    rcases hps : processCands arch a (attName a) (dictGet d (msgKey m)) [] [] with
      ⟨u', w', e⟩
    cases e <;>
      simp [matchAndSave, processMessages, processMessage, processAtts, h1, h2, hps]
  constructor
  · rw [hrun, hc]
    simp
  · intro hnd
    rw [hrun, hc]
    simp only
    rw [insertAll_fresh _ [] (fun c _ => rfl) hnd]
    simp

/-- Witness for C5: one attachment `Data.CSV` matching the two overlapping
patterns `*.csv` and `data*` of the same key yields exactly two outcomes
(rows 0 and 1) and exactly two archival writes. -/
theorem all_matches_recorded_witness :
    (matchAndSave "D:\\Archive"
        (buildDict [⟨CellVal.str "a@x.com", CellVal.str "Report",
            CellVal.str "*.csv", CellVal.str "daily.csv"⟩,
          ⟨CellVal.str "a@x.com", CellVal.str "Report",
            CellVal.str "data*", CellVal.str "second.csv"⟩])
        [⟨true, "A@X.COM", "report", [⟨"Data.CSV", [7], true⟩]⟩]).1
      = [(0, "Saved"), (1, "Saved")] ∧
    (matchAndSave "D:\\Archive"
        (buildDict [⟨CellVal.str "a@x.com", CellVal.str "Report",
            CellVal.str "*.csv", CellVal.str "daily.csv"⟩,
          ⟨CellVal.str "a@x.com", CellVal.str "Report",
            CellVal.str "data*", CellVal.str "second.csv"⟩])
        [⟨true, "A@X.COM", "report", [⟨"Data.CSV", [7], true⟩]⟩]).2.length = 2 := by
  have h := all_matches_recorded "D:\\Archive"
    (buildDict [⟨CellVal.str "a@x.com", CellVal.str "Report",
        CellVal.str "*.csv", CellVal.str "daily.csv"⟩,
      ⟨CellVal.str "a@x.com", CellVal.str "Report",
        CellVal.str "data*", CellVal.str "second.csv"⟩])
    ⟨true, "A@X.COM", "report", [⟨"Data.CSV", [7], true⟩]⟩
    ⟨"Data.CSV", [7], true⟩ rfl rfl rfl
  constructor
  · rw [h.2 (by decide)]
    decide
  · rw [h.1]
    decide

/-- C6: pattern matching is case-insensitive and the sender/subject
normalization is the same on the loader side and the evaluator side:
changing the letter case of the rule's sender, subject or attachment
pattern, or of the message's sender, subject or attachment filename, does
not change the outcome of the run (neither the recorded outcomes nor the
archival writes). -/
theorem matching_case_insensitive
    (arch sv : String) (bs : List Nat)
    (rs rs' rt rt' rp rp' ms ms' mt mt' f f' : String)
    (h1 : pyLower rs = pyLower rs') (h2 : pyLower rt = pyLower rt')
    (h3 : pyLower rp = pyLower rp') (h4 : pyLower ms = pyLower ms')
    (h5 : pyLower mt = pyLower mt') (h6 : pyLower f = pyLower f') :
    matchAndSave arch
        (buildDict [⟨CellVal.str rs, CellVal.str rt, CellVal.str rp, CellVal.str sv⟩])
        [⟨true, ms, mt, [⟨f, bs, true⟩]⟩]
      = matchAndSave arch
          (buildDict [⟨CellVal.str rs', CellVal.str rt', CellVal.str rp', CellVal.str sv⟩])
          [⟨true, ms', mt', [⟨f', bs, true⟩]⟩] := by
  have e1 : pyStrip (pyLower rs) = pyStrip (pyLower rs') := by rw [h1]
  have e2 : pyStrip (pyLower rt) = pyStrip (pyLower rt') := by rw [h2]
  have e3 : pyStrip (pyLower rp) = pyStrip (pyLower rp') := by rw [h3]
  have e4 : pyStrip (pyLower ms) = pyStrip (pyLower ms') := by rw [h4]
  have e5 : pyStrip (pyLower mt) = pyStrip (pyLower mt') := by rw [h5]
  have e6 : pyStrip (pyLower f) = pyStrip (pyLower f') := by rw [h6]
  rw [matchAndSave_single, matchAndSave_single, buildDict_single, buildDict_single]
  simp only [loaderKey, loaderVal, pyStr]
  rw [processCands_filename_irrel arch f f' bs true]
  rw [e1, e2, e3, e4, e5, e6]

/-- Witness for C6 at the spec's example: `Report.PDF` against pattern
`report*.pdf` — the all-lower-case run and the mixed-case run coincide, and
the match is recorded. -/
theorem matching_case_insensitive_witness :
    matchAndSave "D:\\A"
        (buildDict [⟨CellVal.str "a@x.com", CellVal.str "report",
            CellVal.str "report*.pdf", CellVal.str "out.pdf"⟩])
        [⟨true, "a@x.com", "report", [⟨"report.pdf", [7], true⟩]⟩]
      = matchAndSave "D:\\A"
          (buildDict [⟨CellVal.str "A@X.com", CellVal.str "Report",
              CellVal.str "REPORT*.PDF", CellVal.str "out.pdf"⟩])
          [⟨true, "A@X.COM", "Report", [⟨"Report.PDF", [7], true⟩]⟩] ∧
    (matchAndSave "D:\\A"
        (buildDict [⟨CellVal.str "A@X.com", CellVal.str "Report",
            CellVal.str "REPORT*.PDF", CellVal.str "out.pdf"⟩])
        [⟨true, "A@X.COM", "Report", [⟨"Report.PDF", [7], true⟩]⟩]).1
      = [(0, "Saved")] :=
  ⟨matching_case_insensitive "D:\\A" "out.pdf" [7]
      "a@x.com" "A@X.com" "report" "Report" "report*.pdf" "REPORT*.PDF"
      "a@x.com" "A@X.COM" "report" "Report" "report.pdf" "Report.PDF"
      (by decide) (by decide) (by decide) (by decide) (by decide) (by decide),
    by decide⟩

/-- C7: before every archival write of a run, the destination filename is
the matched rule's stored `SaveName` re-sanitised from scratch: every write
of `match_and_save_attachments` is to `os.path.join(archive,
re.sub(r'[<>:"/\\|?*]', '_', SaveName))` for some rule of the dictionary;
and character-wise, the sanitisation replaces exactly the occurrences of
`< > : " / \ | ? *` by a single underscore, leaving every other character
in place. -/
theorem sanitization_before_every_write :
    (∀ (arch : String) (d : RuleDict) (msgs : List Message) (w : Write),
      w ∈ (matchAndSave arch d msgs).2 →
      ∃ k, ∃ c ∈ dictGet d k, ∃ b, w = (osJoin arch (sanitize c.saveName), b)) ∧
    (∀ (s : String) (i : Nat),
      (sanitize s).data[i]?
        = Option.map (fun c => if isIllegalChar c then '_' else c) s.data[i]?) := by
  constructor
  · intro arch d msgs w hw
    rcases processMessages_write_mem arch d msgs [] [] w hw with h1 | h2
    · simp at h1
    · exact h2
  · intro s i
    exact List.getElem?_map _ s.data i

/-- Witness for C7: in a concrete run the single write's path carries the
sanitised form of the stored save name `a/b:c`, and sanitising the spec's
example `Q1/Q2:Report?.xlsx` puts an underscore at the position of the
slash. -/
theorem sanitization_before_every_write_witness :
    (∃ k, ∃ c ∈ dictGet [((("s", "t") : String × String),
        [RuleVal.mk "*" "a/b:c" 0])] k, ∃ b,
      (("D:\\A\\a_b_c", [7]) : Write) = (osJoin "D:\\A" (sanitize c.saveName), b)) ∧
    (sanitize "Q1/Q2:Report?.xlsx").data[2]? = some '_' :=
  ⟨sanitization_before_every_write.1 "D:\\A"
      [((("s", "t") : String × String), [RuleVal.mk "*" "a/b:c" 0])]
      [⟨true, "s", "t", [⟨"x", [7], true⟩]⟩] ("D:\\A\\a_b_c", [7]) (by decide),
    (sanitization_before_every_write.2 "Q1/Q2:Report?.xlsx" 2).trans (by decide)⟩

/-- C8: a `(sender, subject)` key carried by no table row is simply absent
from the built dictionary and yields zero candidates (not an error); a
message with zero attachments, and a message none of whose attachments
matches any candidate, each contribute zero outcomes, zero writes and no
raised error. -/
theorem absent_key_zero_candidates :
    (∀ (rows : List SrcRow) (k : String × String),
      (∀ r ∈ rows, loaderKey r ≠ k) → dictGet (buildDict rows) k = []) ∧
    (∀ (arch : String) (d : RuleDict) (upd : Updates) (ws : List Write) (m : Message),
      m.attachments = [] → processMessage arch d upd ws m = (upd, ws, false)) ∧
    (∀ (arch : String) (d : RuleDict) (upd : Updates) (ws : List Write) (m : Message),
      (∀ c ∈ dictGet d (msgKey m), ∀ a ∈ m.attachments,
        fnmatch (attName a) c.attachmentPattern = false) →
      processMessage arch d upd ws m = (upd, ws, false)) := by
  refine ⟨dictGet_buildDict_absent, ?_, ?_⟩
  · intro arch d upd ws m h
    simp [processMessage, h]
  · intro arch d upd ws m h
    rw [processMessage]
    by_cases hg : (m.isMail && decide (0 < m.attachments.length)) = true
    · rw [if_pos hg]
      exact processAtts_nomatch arch _ m.attachments upd ws
        (fun a ha c hc => h c hc a ha)
    · rw [if_neg hg]

/-- Witness for C8: an absent key yields zero candidates from a one-row
table; a mail message without attachments and a mail message whose only
attachment matches no candidate both leave the run state unchanged with no
error. -/
theorem absent_key_zero_candidates_witness :
    dictGet (buildDict [⟨CellVal.str "a@x.com", CellVal.str "Report",
        CellVal.str "*.csv", CellVal.str "daily.csv"⟩]) ("b@y.com", "other") = [] ∧
    processMessage "D:\\A" [] [] [] ⟨true, "s", "t", []⟩ = ([], [], false) ∧
    processMessage "D:\\A" [((("s", "t") : String × String),
        [RuleVal.mk "*.csv" "n" 0])] [] []
      ⟨true, "s", "t", [⟨"x.pdf", [1], true⟩]⟩ = ([], [], false) :=
  ⟨absent_key_zero_candidates.1 _ _ (by decide),
    absent_key_zero_candidates.2.1 _ _ _ _ _ rfl,
    absent_key_zero_candidates.2.2 _ _ _ _ _ (by decide)⟩

/-- C9: a failure while processing one message (an unreadable attachment,
whose `SaveAsFile` raises) does not abort the run: the run on
`msgs₁ ++ m :: msgs₂` continues with `msgs₂` from the state the failing
message `m` left behind; every outcome key recorded before the failure is
still present afterwards (its value possibly rewritten to the same terminal
`"Saved"`), and the writes performed before the failure are a prefix of the
writes after it. -/
theorem message_failure_isolated (arch : String) (d : RuleDict) (upd : Updates)
    (ws : List Write) (msgs₁ : List Message) (m : Message) (msgs₂ : List Message)
    (_herr : (processMessage arch d (processMessages arch d upd ws msgs₁).1
      (processMessages arch d upd ws msgs₁).2 m).2.2 = true) :
    processMessages arch d upd ws (msgs₁ ++ m :: msgs₂)
        = processMessages arch d
            (processMessage arch d (processMessages arch d upd ws msgs₁).1
              (processMessages arch d upd ws msgs₁).2 m).1
            (processMessage arch d (processMessages arch d upd ws msgs₁).1
              (processMessages arch d upd ws msgs₁).2 m).2.1 msgs₂ ∧
      (∀ (k : Nat) (v : String),
        updLookup (processMessages arch d upd ws msgs₁).1 k = some v →
        updLookup (processMessage arch d (processMessages arch d upd ws msgs₁).1
            (processMessages arch d upd ws msgs₁).2 m).1 k = some v ∨
          updLookup (processMessage arch d (processMessages arch d upd ws msgs₁).1
            (processMessages arch d upd ws msgs₁).2 m).1 k = some "Saved") ∧
      (∃ t, (processMessage arch d (processMessages arch d upd ws msgs₁).1
          (processMessages arch d upd ws msgs₁).2 m).2.1
        = (processMessages arch d upd ws msgs₁).2 ++ t) := by
  refine ⟨?_, ?_, ?_⟩
  · rw [processMessages_append, processMessages_cons]
  · intro k v hv
    exact processMessage_upd_pres arch d _ _ m k v hv
  · exact processMessage_ws_ext arch d _ _ m

/-- Witness for C9: a run whose first message matched and saved row 0 hits
an unreadable attachment in the second message; the prior outcome for row 0
and the prior write survive, and the run continues to the third message. -/
theorem message_failure_isolated_witness :
    processMessages "D:\\A" [((("s", "t") : String × String),
        [RuleVal.mk "*" "n" 0])] [] []
        ([⟨true, "s", "t", [⟨"good", [1], true⟩]⟩]
          ++ ⟨true, "s", "t", [⟨"bad", [2], false⟩]⟩
            :: [⟨true, "s", "t", [⟨"late", [3], true⟩]⟩])
      = processMessages "D:\\A" [((("s", "t") : String × String),
            [RuleVal.mk "*" "n" 0])]
          (processMessage "D:\\A" [((("s", "t") : String × String),
              [RuleVal.mk "*" "n" 0])]
            (processMessages "D:\\A" [((("s", "t") : String × String),
              [RuleVal.mk "*" "n" 0])] [] []
              [⟨true, "s", "t", [⟨"good", [1], true⟩]⟩]).1
            (processMessages "D:\\A" [((("s", "t") : String × String),
              [RuleVal.mk "*" "n" 0])] [] []
              [⟨true, "s", "t", [⟨"good", [1], true⟩]⟩]).2
            ⟨true, "s", "t", [⟨"bad", [2], false⟩]⟩).1
          (processMessage "D:\\A" [((("s", "t") : String × String),
              [RuleVal.mk "*" "n" 0])]
            (processMessages "D:\\A" [((("s", "t") : String × String),
              [RuleVal.mk "*" "n" 0])] [] []
              [⟨true, "s", "t", [⟨"good", [1], true⟩]⟩]).1
            (processMessages "D:\\A" [((("s", "t") : String × String),
              [RuleVal.mk "*" "n" 0])] [] []
              [⟨true, "s", "t", [⟨"good", [1], true⟩]⟩]).2
            ⟨true, "s", "t", [⟨"bad", [2], false⟩]⟩).2.1
          [⟨true, "s", "t", [⟨"late", [3], true⟩]⟩] ∧
      (∀ (k : Nat) (v : String),
        updLookup (processMessages "D:\\A" [((("s", "t") : String × String),
            [RuleVal.mk "*" "n" 0])] [] []
            [⟨true, "s", "t", [⟨"good", [1], true⟩]⟩]).1 k = some v →
        updLookup (processMessage "D:\\A" [((("s", "t") : String × String),
              [RuleVal.mk "*" "n" 0])]
            (processMessages "D:\\A" [((("s", "t") : String × String),
              [RuleVal.mk "*" "n" 0])] [] []
              [⟨true, "s", "t", [⟨"good", [1], true⟩]⟩]).1
            (processMessages "D:\\A" [((("s", "t") : String × String),
              [RuleVal.mk "*" "n" 0])] [] []
              [⟨true, "s", "t", [⟨"good", [1], true⟩]⟩]).2
            ⟨true, "s", "t", [⟨"bad", [2], false⟩]⟩).1 k = some v ∨
          updLookup (processMessage "D:\\A" [((("s", "t") : String × String),
              [RuleVal.mk "*" "n" 0])]
            (processMessages "D:\\A" [((("s", "t") : String × String),
              [RuleVal.mk "*" "n" 0])] [] []
              [⟨true, "s", "t", [⟨"good", [1], true⟩]⟩]).1
            (processMessages "D:\\A" [((("s", "t") : String × String),
              [RuleVal.mk "*" "n" 0])] [] []
              [⟨true, "s", "t", [⟨"good", [1], true⟩]⟩]).2
            ⟨true, "s", "t", [⟨"bad", [2], false⟩]⟩).1 k = some "Saved") ∧
      (∃ t, (processMessage "D:\\A" [((("s", "t") : String × String),
              [RuleVal.mk "*" "n" 0])]
            (processMessages "D:\\A" [((("s", "t") : String × String),
              [RuleVal.mk "*" "n" 0])] [] []
              [⟨true, "s", "t", [⟨"good", [1], true⟩]⟩]).1
            (processMessages "D:\\A" [((("s", "t") : String × String),
              [RuleVal.mk "*" "n" 0])] [] []
              [⟨true, "s", "t", [⟨"good", [1], true⟩]⟩]).2
            ⟨true, "s", "t", [⟨"bad", [2], false⟩]⟩).2.1
        = (processMessages "D:\\A" [((("s", "t") : String × String),
            [RuleVal.mk "*" "n" 0])] [] []
            [⟨true, "s", "t", [⟨"good", [1], true⟩]⟩]).2 ++ t) :=
  message_failure_isolated "D:\\A" [((("s", "t") : String × String),
      [RuleVal.mk "*" "n" 0])] [] []
    [⟨true, "s", "t", [⟨"good", [1], true⟩]⟩]
    ⟨true, "s", "t", [⟨"bad", [2], false⟩]⟩
    [⟨true, "s", "t", [⟨"late", [3], true⟩]⟩] (by decide)

end RestatementProcess
